import Mathlib

/-!
# Shallow embedding of the rust-cpp-parser excerpt

This file embeds the four source files of the excerpt
(`parser/names/name.rs`, `parser/declarations/array.rs`,
`parser/declarations/extern.rs`, `parser/statements/do.rs`) as executable
Lean definitions and proves properties of them.

Modelling conventions:
* The lexer is a list of tokens plus a position counter; `nextUseful` pops
  the head (yielding `Token.Eof` when exhausted) and advances the counter,
  which plays the role of `lexer.span()` in error reports.
* Sub-parsers that live outside the excerpt (Statement, Expression,
  Attribute, Operator, Destructor, DeclarationList, TypeDeclarator parsers)
  are oracle functions passed as parameters; they thread the lexer and the
  shared `Context`, mirroring `&mut` state in the source.
* Rust `Result<(Option<Token>, Option<T>), ParserError>` becomes
  `Except ParserError (Option Token × Option T)`; since `&mut` mutations
  survive an `Err` return, every embedded parser returns the final
  `Lexer × Context` alongside the `Except` value.
* `.unwrap()` on a sub-parser result is modelled as the `unwrapFailed`
  error; loops take explicit fuel, with `outOfFuel` on exhaustion (the
  top-level wrappers supply fuel that is sufficient for every run in which
  the oracles consume input, and all theorems are stated so that the fuel
  artefact cannot be mistaken for source behaviour).
-/

namespace Cpp

/-- Lexical tokens, the subset of the source `Token` enum used by the four
embedded files, plus catch-all constructors for tokens that only ever reach
the default match arms. -/
inductive Token where
  | ColonColon
  | Identifier (val : String)
  | Operator
  | Tilde
  | While
  | LeftParen
  | RightParen
  | SemiColon
  | LeftBrack
  | RightBrack
  | DoubleLeftBrack
  | LeftBrace
  | RightBrace
  | Extern
  | LiteralString (s : String)
  | LiteralInt (n : Nat)
  | Eof
  deriving DecidableEq, Repr

/-- The token source: remaining tokens plus the position counter used as the
source span (`lexer.span()`). -/
structure Lexer where
  toks : List Token
  pos : Nat
  deriving DecidableEq, Repr

/-- Models `lexer.next_useful()`: pop the next token (end-of-stream yields
`Token.Eof`) and advance the span counter. -/
def nextUseful : Lexer → Token × Lexer
  | ⟨[], p⟩ => (Token.Eof, ⟨[], p + 1⟩)
  | ⟨t :: r, p⟩ => (t, ⟨r, p + 1⟩)

/-- Models `tok.unwrap_or_else(|| self.lexer.next_useful())`. -/
def resolveTok : Option Token → Lexer → Token × Lexer
  | some t, l => (t, l)
  | none, l => nextUseful l

/-- The source `ParserError` variants reachable from the embedded files,
plus `other` for errors produced by oracle sub-parsers, `unwrapFailed` for a
Rust `.unwrap()` panic, and `outOfFuel` for the fuel artefact. -/
inductive ParserError where
  | invalidTokenInDo (sp : Nat) (tok : Token)
  | invalidTokenInArraySize (sp : Nat) (tok : Token)
  | invalidTokenInExtern (sp : Nat) (tok : Token)
  | other (tag : Nat)
  | unwrapFailed
  | outOfFuel
  deriving DecidableEq, Repr

/-- `struct Identifier { val: String }` from `name.rs`. -/
structure Identifier where
  val : String
  deriving DecidableEq, Repr

/-- Destructor node returned by the `DtorParser` collaborator (`dtor.rs`,
outside the excerpt); only its carrier shape matters here. -/
structure Destructor where
  name : String
  deriving DecidableEq, Repr

/-- Operator node returned by the `OperatorParser` collaborator
(`operator.rs`, outside the excerpt); opaque to the qualified-name parser. -/
inductive Operator where
  | op (s : String)
  deriving DecidableEq, Repr

/-- `enum Name` from `name.rs` (the commented-out `Template` and `Decltype`
variants are deferred in the source and omitted here as well); the source
boxes the operator, which is irrelevant in Lean. -/
inductive Name where
  | Identifier (id : Identifier)
  | Destructor (d : Destructor)
  | Operator (op : Operator)
  | Empty
  deriving DecidableEq, Repr

/-- `struct Qualified { names: Vec<Name> }` from `name.rs`. -/
structure Qualified where
  names : List Name
  deriving DecidableEq, Repr

/-- Modelled from the spec: expression AST node produced by the Expression
parser collaborator (out of scope for the excerpt); only integer literals
are needed by the claims, everything else is opaque. -/
inductive ExprNode where
  | integer (n : Nat)
  | opaqueNode (tag : Nat)
  deriving DecidableEq, Repr

/-- Modelled from the spec: attribute list produced by the Attribute parser
collaborator; opaque here. -/
inductive Attributes where
  | mk (tag : Nat)
  deriving DecidableEq, Repr

/-- Modelled from the spec: statement node produced by the generic Statement
parser collaborator; opaque here. -/
inductive Statement where
  | mk (tag : Nat)
  deriving DecidableEq, Repr

/-- `struct Dimension { size, attributes }` from `array.rs`. -/
structure Dimension where
  size : Option ExprNode
  attributes : Option Attributes
  deriving DecidableEq, Repr

/-- Modelled from the spec: the type AST node (`Type` in the source, a Lean
keyword); opaque here — `array.rs` only ever stores `None` in `base`. -/
inductive CType where
  | mk (tag : Nat)
  deriving DecidableEq, Repr

/-- `struct Array { base, dimensions }` from `array.rs`. -/
structure Array where
  base : Option CType
  dimensions : List Dimension
  deriving DecidableEq, Repr

/-- Modelled from the spec: the type declarator produced by the
TypeDeclarator parser collaborator; opaque here. -/
structure TypeDeclarator where
  tag : Nat
  deriving DecidableEq, Repr

/-- Modelled from the spec: the `Specifier` bitflags of the declaration
family; only `EXTERN` is exercised by the excerpt. -/
inductive Specifier where
  | EXTERN
  | otherSpec (tag : Nat)
  deriving DecidableEq, Repr

/-- Modelled from the spec: the `DeclHint` passed to the TypeDeclarator
parser; `extern.rs` uses `DeclHint::Specifier(Specifier::EXTERN)`. -/
inductive DeclHint where
  | Specifier (s : Specifier)
  | otherHint (tag : Nat)
  deriving DecidableEq, Repr

/-- Modelled from the spec: scope kinds pushed on the Context's scope stack
(`ScopeKind::DoBlock` is the one used by `do.rs`). -/
inductive ScopeKind where
  | DoBlock
  | otherScope (tag : Nat)
  deriving DecidableEq, Repr

/-- `enum Declaration`: the two variants reachable from `extern.rs`
(`Declaration::Extern` carrying the `Extern` struct fields `language`,
`decls`, `multiple`, and `Declaration::Type`; `Extern`/`Type` are flattened
since `Type` is a Lean keyword). -/
inductive Declaration where
  | externD (language : String) (decls : List Declaration) (multiple : Bool)
  | typeD (t : TypeDeclarator)
  deriving Repr

/-- `struct Do { attributes, body, condition }` from `do.rs`. -/
structure Do where
  attributes : Option Attributes
  body : Statement
  condition : ExprNode
  deriving DecidableEq, Repr

/-- Modelled from the spec: the shared mutable parse `Context` — a scope
stack and the accumulated type-declaration knowledge. -/
structure Context where
  scopes : List ScopeKind
  typeDecls : List TypeDeclarator

/-- Models `context.set_current(name, kind)`: push a scope of the given
kind (the optional scope name is not observable in the excerpt). -/
def Context.setCurrent (ctx : Context) (_name : Option Qualified) (kind : ScopeKind) :
    Context :=
  { ctx with scopes := kind :: ctx.scopes }

/-- Models `context.pop()`: drop the innermost scope. -/
def Context.pop (ctx : Context) : Context :=
  { ctx with scopes := ctx.scopes.tail }

/-- Models `context.add_type_decl(t)`: record a declared type. -/
def Context.addTypeDecl (ctx : Context) (t : TypeDeclarator) : Context :=
  { ctx with typeDecls := t :: ctx.typeDecls }

/-- Result shape of every sub-parser: the `Except` value of the Rust
`Result`, together with the final lexer and context (which survive errors,
as `&mut` state does in the source). -/
abbrev SubParse (α : Type) :=
  Except ParserError (Option Token × Option α) × Lexer × Context

/-- Oracle for `OperatorParser::parse(tok, context)`. -/
abbrev OpOracle := Option Token → Lexer → Context → SubParse Operator

/-- Oracle for `DtorParser::parse(tok, context)`. -/
abbrev DtorOracle := Option Token → Lexer → Context → SubParse Destructor

/-- Oracle for `StatementParser::parse(tok, context)`. -/
abbrev StmtOracle := Option Token → Lexer → Context → SubParse Statement

/-- Oracle for `ExpressionParser::new(lexer, term).parse(tok, context)`:
the first argument is the terminator the expression parse is bounded by. -/
abbrev ExprOracle := Token → Option Token → Lexer → Context → SubParse ExprNode

/-- Oracle for `AttributesParser::parse(tok, context)`. -/
abbrev AttrOracle := Option Token → Lexer → Context → SubParse Attributes

/-- Oracle for `DeclarationListParser::parse(tok, context)`. -/
abbrev DeclListOracle :=
  Option Token → Lexer → Context → SubParse (List Declaration)

/-- Oracle for `TypeDeclaratorParser::parse(tok, hint, top_level, context)`. -/
abbrev TypeDeclOracle :=
  Option Token → Option DeclHint → Bool → Lexer → Context → SubParse TypeDeclarator

/-! ## QualifiedParser (`name.rs`) -/

/-- The `loop` of `QualifiedParser::parse`, with explicit fuel. Each arm is
a direct transcription of the corresponding `match tok` arm of the source
(the commented-out `Token::Lower` template arm is dead code there and absent
here). -/
def QualifiedParser.qloop (opP : OpOracle) (dP : DtorOracle) :
    Nat → Token → List Name → Bool → Lexer → Context → SubParse Qualified
  | 0, _, _, _, l, ctx => (.error .outOfFuel, l, ctx)
  | fuel + 1, tok, names, waitId, l, ctx =>
    match tok with
    | .ColonColon =>
      QualifiedParser.qloop opP dP fuel (nextUseful l).1
        (if names.isEmpty then [Name.Empty] else names) true (nextUseful l).2 ctx
    | .Identifier val =>
      if waitId then
        QualifiedParser.qloop opP dP fuel (nextUseful l).1
          (names ++ [Name.Identifier ⟨val⟩]) false (nextUseful l).2 ctx
      else
        (.ok (some (Token.Identifier val), some ⟨names⟩), l, ctx)
    | .Operator =>
      match opP (some Token.Operator) l ctx with
      | (.ok (tk, some operator), l1, c1) =>
        (.ok (tk, some ⟨names ++ [Name.Operator operator]⟩), l1, c1)
      | (.ok (_, none), l1, c1) => (.error .unwrapFailed, l1, c1)
      | (.error e, l1, c1) => (.error e, l1, c1)
    | .Tilde =>
      if waitId then
        match dP (some Token.Tilde) l ctx with
        | (.ok (tk, some dtor), l1, c1) =>
          (.ok (tk, some ⟨names ++ [Name.Destructor dtor]⟩), l1, c1)
        | (.ok (_, none), l1, c1) => (.error .unwrapFailed, l1, c1)
        | (.error e, l1, c1) => (.error e, l1, c1)
      else
        (.ok (some Token.Tilde, some ⟨names⟩), l, ctx)
    | t =>
      if names.isEmpty then (.ok (some t, none), l, ctx)
      else (.ok (some t, some ⟨names⟩), l, ctx)

/-- `QualifiedParser::parse(tok, first, context)`: resolve the lookahead,
seed `names`/`wait_id` from the optional pre-known first identifier, and run
the loop.  The fuel `l.toks.length + 2` bounds the iteration count of every
run of the source loop (each iteration past the first consumes a token, and
`Eof` always exits). -/
def QualifiedParser.parse (opP : OpOracle) (dP : DtorOracle)
    (tokOpt : Option Token) (first : Option String) (l : Lexer) (ctx : Context) :
    SubParse Qualified :=
  let tok := (resolveTok tokOpt l).1
  let l1 := (resolveTok tokOpt l).2
  match first with
  | some val =>
    QualifiedParser.qloop opP dP (l1.toks.length + 2) tok [Name.Identifier ⟨val⟩] false l1 ctx
  | none =>
    QualifiedParser.qloop opP dP (l1.toks.length + 2) tok [] true l1 ctx

/-! ## ArrayParser (`array.rs`) -/

/-- The `loop` of `ArrayParser::parse`, with explicit fuel.  Note the error
arm reproduces the source exactly: the reported token is `tok` (the opening
`[` that the loop iteration started from), not `tk` (the offending
terminator). -/
def ArrayParser.parseLoop (eP : ExprOracle) (aP : AttrOracle) :
    Nat → Token → List Dimension → Lexer → Context → SubParse Array
  | 0, _, _, l, ctx => (.error .outOfFuel, l, ctx)
  | fuel + 1, tok, dims, l, ctx =>
    if tok = Token.LeftBrack then
      match eP Token.RightBrack none l ctx with
      | (.error e, l1, c1) => (.error e, l1, c1)
      | (.ok (tk, size), l1, c1) =>
        if (resolveTok tk l1).1 = Token.RightBrack then
          match aP none (resolveTok tk l1).2 c1 with
          | (.error e, l3, c2) => (.error e, l3, c2)
          | (.ok (tk2, attributes), l3, c2) =>
            ArrayParser.parseLoop eP aP fuel (resolveTok tk2 l3).1
              (dims ++ [⟨size, attributes⟩]) (resolveTok tk2 l3).2 c2
        else
          (.error (.invalidTokenInArraySize (resolveTok tk l1).2.pos tok),
           (resolveTok tk l1).2, c1)
    else
      if dims.isEmpty then (.ok (some tok, none), l, ctx)
      else (.ok (some tok, some ⟨none, dims⟩), l, ctx)

/-- `ArrayParser::parse(tok, context)`. -/
def ArrayParser.parse (eP : ExprOracle) (aP : AttrOracle)
    (tokOpt : Option Token) (l : Lexer) (ctx : Context) : SubParse Array :=
  ArrayParser.parseLoop eP aP ((resolveTok tokOpt l).2.toks.length + 2)
    (resolveTok tokOpt l).1 [] (resolveTok tokOpt l).2 ctx

/-! ## ExternParser (`extern.rs`) -/

/-- `ExternParser::parse(tok, context)`.  Transcription notes: after the
string literal, the next token is pulled and only *compared* with `{`
(`has_brace`); the declaration-list oracle is then invoked with lookahead
`None` in both branches, exactly as in the source. -/
def ExternParser.parse (dlp : DeclListOracle) (tdp : TypeDeclOracle)
    (tokOpt : Option Token) (l : Lexer) (ctx : Context) : SubParse Declaration :=
  let tok := (resolveTok tokOpt l).1
  let l1 := (resolveTok tokOpt l).2
  if tok = Token.Extern then
    let tok2 := (nextUseful l1).1
    let l2 := (nextUseful l1).2
    match tok2 with
    | .LiteralString language =>
      let tok3 := (nextUseful l2).1
      let l3 := (nextUseful l2).2
      let hasBrace := tok3 = Token.LeftBrace
      match dlp none l3 ctx with
      | (.error e, l4, c1) => (.error e, l4, c1)
      | (.ok (tok4, list), l4, c1) =>
        if hasBrace then
          let tok5 := (resolveTok tok4 l4).1
          let l5 := (resolveTok tok4 l4).2
          if tok5 = Token.RightBrace then
            match list with
            | some decls =>
              (.ok (none, some (.externD language decls true)), l5, c1)
            | none => (.error .unwrapFailed, l5, c1)
          else
            (.error (.invalidTokenInExtern l5.pos tok5), l5, c1)
        else
          match list with
          | some decls =>
            (.ok (tok4, some (.externD language decls false)), l4, c1)
          | none => (.error .unwrapFailed, l4, c1)
    | _ =>
      match tdp (some tok2) (some (DeclHint.Specifier Specifier.EXTERN)) true l2 ctx with
      | (.error e, l3, c1) => (.error e, l3, c1)
      | (.ok (tok3, some typ), l3, c1) =>
        (.ok (tok3, some (.typeD typ)), l3, c1.addTypeDecl typ)
      | (.ok (_, none), l3, c1) => (.error .unwrapFailed, l3, c1)
  else
    (.ok (some tok, none), l1, ctx)

/-! ## DoStmtParser (`do.rs`) -/

/-- `DoStmtParser::parse(attributes, context)`.  The `DoBlock` scope is
pushed before the body parse; as in the source, `context.pop()` sits *after*
the `?` on the body parse, so a body error returns with the scope still on
the stack. -/
def DoStmtParser.parse (sP : StmtOracle) (eP : ExprOracle)
    (attributes : Option Attributes) (l : Lexer) (ctx : Context) : SubParse Do :=
  let ctx := ctx.setCurrent none ScopeKind.DoBlock
  match sP none l ctx with
  | (.error e, l1, c1) => (.error e, l1, c1)
  | (.ok (tk, body), l1, c1) =>
    let c2 := c1.pop
    let tok := (resolveTok tk l1).1
    let l2 := (resolveTok tk l1).2
    if tok = Token.While then
      let tokP := (nextUseful l2).1
      let l3 := (nextUseful l2).2
      if tokP = Token.LeftParen then
        match eP Token.RightParen none l3 c2 with
        | (.error e, l4, c3) => (.error e, l4, c3)
        | (.ok (tk2, condition), l4, c3) =>
          let tokR := (resolveTok tk2 l4).1
          let l5 := (resolveTok tk2 l4).2
          if tokR = Token.RightParen then
            let tokS := (nextUseful l5).1
            let l6 := (nextUseful l5).2
            if tokS = Token.SemiColon then
              match body, condition with
              | some b, some c => (.ok (none, some ⟨attributes, b, c⟩), l6, c3)
              | _, _ => (.error .unwrapFailed, l6, c3)
            else (.error (.invalidTokenInDo l6.pos tokS), l6, c3)
          else
            (.error (.invalidTokenInDo l5.pos tokR), l5, c3)
      else
        (.error (.invalidTokenInDo l3.pos tokP), l3, c2)
    else
      (.error (.invalidTokenInDo l2.pos tok), l2, c2)

/-! ## Spec-modelled concrete collaborators

These are used to evaluate the embedded parsers on concrete token streams;
they follow the collaborator contracts of spec §6. -/

/-- Modelled from the spec: the Expression parser collaborator, restricted
to the expressions the claims exercise — an optional single integer-literal
expression bounded by a terminator.  It stops at the first token it cannot
incorporate and hands it back as the unconsumed lookahead. -/
def exprOracleLit : ExprOracle := fun _term tokOpt l ctx =>
  let (t, l1) := resolveTok tokOpt l
  match t with
  | .LiteralInt n =>
    let (t2, l2) := nextUseful l1
    (.ok (some t2, some (ExprNode.integer n)), l2, ctx)
  | _ => (.ok (some t, none), l1, ctx)

/-- Modelled from the spec: the Attribute parser collaborator on streams
that carry no attribute list — it reads one token, does not recognise an
attribute introducer, and hands the token back unconsumed with no node. -/
def attrOracleNone : AttrOracle := fun tokOpt l ctx =>
  let (t, l1) := resolveTok tokOpt l
  (.ok (some t, none), l1, ctx)

/-- A statement-parser oracle that fails outright, standing for a malformed
`do`-body (e.g. `do @ while (1);`). -/
def stmtOracleFail : StmtOracle := fun _ l ctx => (.error (.other 7), l, ctx)

/-- A statement-parser oracle that succeeds immediately, consuming nothing
and returning no lookahead. -/
def stmtOracleOk : StmtOracle := fun _ l ctx =>
  (.ok (none, some (Statement.mk 0)), l, ctx)

/-- An operator-parser oracle that fails; the qualified-name claims never
reach the `Operator` arm on their inputs, so any oracle serves. -/
def opOracleFail : OpOracle := fun _ l ctx => (.error (.other 8), l, ctx)

/-- A destructor-parser oracle that fails; same role as `opOracleFail`. -/
def dtorOracleFail : DtorOracle := fun _ l ctx => (.error (.other 9), l, ctx)

/-- A declaration marker built by `dlpProbe`; records a string. -/
def probeDecl (s : String) : Declaration := .externD s [] false

/-- A declaration-list oracle that records whether it was handed a lookahead
token: it returns the one-element list `[probeDecl "saw"]` when invoked with
`Some` lookahead and `[probeDecl "missed"]` when invoked with `None`. -/
def dlpProbe : DeclListOracle := fun tokOpt l ctx =>
  match tokOpt with
  | some _ => (.ok (some Token.Eof, some [probeDecl "saw"]), l, ctx)
  | none => (.ok (some Token.Eof, some [probeDecl "missed"]), l, ctx)

/-- A type-declarator oracle returning a fixed declarator and no lookahead. -/
def tdpConst : TypeDeclOracle := fun _ _ _ l ctx =>
  (.ok (some Token.Eof, some ⟨42⟩), l, ctx)

/-! ## Helper definitions for the claim statements -/

/-- The token stream for the tail of an identifier chain: `:: b` for each
element. -/
def chainToks : List String → List Token
  | [] => []
  | b :: rs => Token.ColonColon :: Token.Identifier b :: chainToks rs

/-- `Name.Identifier` from a string. -/
def mkIdName (s : String) : Name := Name.Identifier ⟨s⟩

/-- Whether a token is one of the four that can start a qualified name
(`::`, identifier, operator keyword, `~`). -/
def startsName : Token → Bool
  | .ColonColon => true
  | .Identifier _ => true
  | .Operator => true
  | .Tilde => true
  | _ => false

/-- The first token a parser invocation examines: the lookahead if present,
else the head of the stream. -/
def initialTok (tokOpt : Option Token) (l : Lexer) : Token :=
  (resolveTok tokOpt l).1

/-! ## Theorems -/

/-- C1: the claim says the `DoBlock` scope pushed by `DoStmtParser::parse`
is popped on every exit path, including when the body `Statement` parse
errors.  The code violates this: `context.pop()` sits after the `?` on the
body parse, so when the body parser fails the propagated error leaves the
`DoBlock` scope on the Context's scope stack.  Here, starting from an empty
scope stack, the returned context carries `[DoBlock]`, not the pre-call
`[]`. -/
theorem do_scope_leak_on_body_error :
    DoStmtParser.parse stmtOracleFail exprOracleLit none ⟨[], 0⟩ ⟨[], []⟩ =
      (.error (.other 7), ⟨[], 0⟩, ⟨[ScopeKind.DoBlock], []⟩) ∧
    [ScopeKind.DoBlock] ≠ ([] : List ScopeKind) :=
  ⟨rfl, by decide⟩

/-- One step of the array loop when the current token is not `[`: the loop
exits and returns the token unconsumed, with `none` for an empty dimension
list. -/
theorem ArrayParser.parseLoop_not_bracket (eP : ExprOracle) (aP : AttrOracle)
    (fuel : Nat) (tok : Token) (dims : List Dimension) (l : Lexer) (ctx : Context)
    (h : tok ≠ Token.LeftBrack) :
    ArrayParser.parseLoop eP aP (fuel + 1) tok dims l ctx =
      if dims.isEmpty then (.ok (some tok, none), l, ctx)
      else (.ok (some tok, some ⟨none, dims⟩), l, ctx) := by
  simp [ArrayParser.parseLoop, h]

/-- C5: on `[10][]` the array parser returns exactly two dimensions, the
first sized by the literal `10` and the second unsized; and whenever the
first token examined is not `[`, it returns that token unconsumed with no
`Array` node (for every choice of expression/attribute collaborator). -/
theorem array_two_dims_and_none_on_no_bracket :
    ArrayParser.parse exprOracleLit attrOracleNone none
        ⟨[Token.LeftBrack, Token.LiteralInt 10, Token.RightBrack,
          Token.LeftBrack, Token.RightBrack], 0⟩ ⟨[], []⟩ =
      (.ok (some Token.Eof,
            some ⟨none, [⟨some (ExprNode.integer 10), none⟩, ⟨none, none⟩]⟩),
       ⟨[], 6⟩, ⟨[], []⟩) ∧
    (∀ (eP : ExprOracle) (aP : AttrOracle) (tokOpt : Option Token) (t : Token)
       (l l1 : Lexer) (ctx : Context),
      resolveTok tokOpt l = (t, l1) → t ≠ Token.LeftBrack →
      ArrayParser.parse eP aP tokOpt l ctx = (.ok (some t, none), l1, ctx)) := by
  refine ⟨rfl, ?_⟩
  intro eP aP tokOpt t l l1 ctx hres ht
  unfold ArrayParser.parse
  rw [hres]
  show ArrayParser.parseLoop eP aP (l1.toks.length + 2) t [] l1 ctx = _
  have hfuel : l1.toks.length + 2 = (l1.toks.length + 1) + 1 := rfl
  rw [hfuel, ArrayParser.parseLoop_not_bracket eP aP _ t [] l1 ctx ht]
  simp

/-- C5 witness: the no-`[` case at the concrete token `;`. -/
theorem array_two_dims_and_none_witness :
    ArrayParser.parse exprOracleLit attrOracleNone (some Token.SemiColon)
        ⟨[], 0⟩ ⟨[], []⟩ =
      (.ok (some Token.SemiColon, none), ⟨[], 0⟩, ⟨[], []⟩) :=
  array_two_dims_and_none_on_no_bracket.2 exprOracleLit attrOracleNone
    (some Token.SemiColon) Token.SemiColon ⟨[], 0⟩ ⟨[], 0⟩ ⟨[], []⟩ rfl (by decide)

/-- C6: the claim says the `InvalidTokenInArraySize` error carries the
offending terminator token.  The code instead carries `tok` — the opening
`[` the loop iteration started from — not the offending terminator `tk`
(a variable slip in `array.rs` lines 75–78).  On `[10)` the error carries
`[` where the claim requires `)` (the span, `3`, does point at the `)`). -/
theorem array_size_error_carries_bracket :
    ArrayParser.parse exprOracleLit attrOracleNone none
        ⟨[Token.LeftBrack, Token.LiteralInt 10, Token.RightParen], 0⟩ ⟨[], []⟩ =
      (.error (.invalidTokenInArraySize 3 Token.LeftBrack), ⟨[], 3⟩, ⟨[], []⟩) ∧
    Token.LeftBrack ≠ Token.RightParen :=
  ⟨rfl, by decide⟩

/-- Every `Ok` exit of the array loop returns `Some` in the token slot. -/
theorem ArrayParser.parseLoop_ok_some (eP : ExprOracle) (aP : AttrOracle) :
    ∀ (fuel : Nat) (tok : Token) (dims : List Dimension) (l : Lexer) (ctx : Context)
      (tk : Option Token) (res : Option Cpp.Array) (l' : Lexer) (ctx' : Context),
      ArrayParser.parseLoop eP aP fuel tok dims l ctx = (.ok (tk, res), l', ctx') →
      tk.isSome = true := by
  intro fuel
  induction fuel with
  | zero =>
    intro tok dims l ctx tk res l' ctx' h
    simp [ArrayParser.parseLoop] at h
  | succ f ih =>
    intro tok dims l ctx tk res l' ctx' h
    simp only [ArrayParser.parseLoop] at h
    split at h
    · split at h
      · simp at h
      · split at h
        · split at h
          · simp at h
          · exact ih _ _ _ _ _ _ _ _ h
        · simp at h
    · split at h <;>
        (simp only [Prod.mk.injEq, Except.ok.injEq] at h; rw [← h.1.1]; rfl)

/-- C10: whenever `ArrayParser::parse` returns `Ok`, the next-token slot is
`Some` — the array parser never signals "consumed its own terminator" —
for every input and every behaviour of the delegated collaborators. -/
theorem array_parse_ok_token_always_some (eP : ExprOracle) (aP : AttrOracle)
    (tokOpt : Option Token) (l : Lexer) (ctx : Context) (tk : Option Token)
    (res : Option Cpp.Array) (l' : Lexer) (ctx' : Context)
    (h : ArrayParser.parse eP aP tokOpt l ctx = (.ok (tk, res), l', ctx')) :
    tk.isSome = true := by
  unfold ArrayParser.parse at h
  rcases hres : resolveTok tokOpt l with ⟨tok, l1⟩
  rw [hres] at h
  exact ArrayParser.parseLoop_ok_some eP aP _ _ _ _ _ _ _ _ _ h

/-- C10 witness: at a concrete no-match input the returned slot is
`some ;`, hence `isSome`. -/
theorem array_parse_ok_token_witness : (some Token.SemiColon).isSome = true :=
  array_parse_ok_token_always_some exprOracleLit attrOracleNone
    (some Token.SemiColon) ⟨[], 0⟩ ⟨[], []⟩ (some Token.SemiColon) none
    ⟨[], 0⟩ ⟨[], []⟩ rfl

/-- One step of the qualified-name loop on an identifier while `wait_id`:
push the identifier and continue. -/
theorem QualifiedParser.qloop_step_id (opP : OpOracle) (dP : DtorOracle)
    (fuel : Nat) (val : String) (names : List Name) (l : Lexer) (ctx : Context) :
    QualifiedParser.qloop opP dP (fuel + 1) (Token.Identifier val) names true l ctx =
      QualifiedParser.qloop opP dP fuel (nextUseful l).1
        (names ++ [Name.Identifier ⟨val⟩]) false (nextUseful l).2 ctx := by
  simp [QualifiedParser.qloop]

/-- One step of the qualified-name loop on `::`: push `Empty` when nothing
has been collected, set `wait_id`, continue. -/
theorem QualifiedParser.qloop_step_colon (opP : OpOracle) (dP : DtorOracle)
    (fuel : Nat) (names : List Name) (waitId : Bool) (l : Lexer) (ctx : Context) :
    QualifiedParser.qloop opP dP (fuel + 1) Token.ColonColon names waitId l ctx =
      QualifiedParser.qloop opP dP fuel (nextUseful l).1
        (if names.isEmpty then [Name.Empty] else names) true (nextUseful l).2 ctx := by
  simp [QualifiedParser.qloop]

/-- The qualified-name loop on a token that starts no name: exit, handing
the token back, with `none` when nothing was collected. -/
theorem QualifiedParser.qloop_exit (opP : OpOracle) (dP : DtorOracle)
    (fuel : Nat) (tok : Token) (names : List Name) (waitId : Bool) (l : Lexer)
    (ctx : Context) (h : startsName tok = false) :
    QualifiedParser.qloop opP dP (fuel + 1) tok names waitId l ctx =
      if names.isEmpty then (.ok (some tok, none), l, ctx)
      else (.ok (some tok, some ⟨names⟩), l, ctx) := by
  cases tok <;> simp_all [startsName, QualifiedParser.qloop]

/-- Running the loop from an identifier over a `(:: id)*` chain consumes the
whole chain and appends exactly the chain's identifiers. -/
theorem QualifiedParser.qloop_chain (opP : OpOracle) (dP : DtorOracle) :
    ∀ (rest : List String) (f : Nat) (a : String) (names : List Name) (p : Nat)
      (ctx : Context),
      2 * rest.length ≤ f →
      (QualifiedParser.qloop opP dP (f + 2) (Token.Identifier a) names true
          ⟨chainToks rest, p⟩ ctx).1 =
        .ok (some Token.Eof, some ⟨names ++ (a :: rest).map mkIdName⟩) := by
  intro rest
  induction rest with
  | nil =>
    intro f a names p ctx _
    rw [show f + 2 = f + 1 + 1 by omega, QualifiedParser.qloop_step_id]
    simp only [nextUseful, chainToks]
    rw [QualifiedParser.qloop_exit opP dP f Token.Eof _ false _ ctx rfl]
    simp [mkIdName]
  | cons b rs ih =>
    intro f a names p ctx hf
    obtain ⟨g, rfl⟩ : ∃ g, f = g + 2 := ⟨f - 2, by simp at hf; omega⟩
    rw [show g + 2 + 2 = g + 3 + 1 by omega, QualifiedParser.qloop_step_id]
    simp only [nextUseful, chainToks]
    rw [show g + 3 = g + 2 + 1 by omega, QualifiedParser.qloop_step_colon]
    have hni : (names ++ [Name.Identifier ⟨a⟩]).isEmpty = false := by simp
    have hle : 2 * rs.length ≤ g := by simp at hf; omega
    have hch := ih g b (names ++ [mkIdName a]) (p + 2) ctx hle
    simp only [nextUseful, hni, Bool.false_eq_true, if_false]
    simpa [mkIdName, List.append_assoc] using hch

/-- C2: for every token stream of `n ≥ 1` identifiers joined by `::` (with
nothing after), `QualifiedParser::parse` with no lookahead and no pre-known
first identifier returns `Ok` with exactly those identifier segments in
order, and the trailing token is the end-of-stream token. -/
theorem qualified_chain_roundtrip (opP : OpOracle) (dP : DtorOracle)
    (a : String) (rest : List String) (p : Nat) (ctx : Context) :
    (QualifiedParser.parse opP dP none none
        ⟨Token.Identifier a :: chainToks rest, p⟩ ctx).1 =
      .ok (some Token.Eof, some ⟨(a :: rest).map mkIdName⟩) := by
  unfold QualifiedParser.parse
  simp only [resolveTok, nextUseful]
  have hlen : (chainToks rest).length = 2 * rest.length := by
    induction rest with
    | nil => simp [chainToks]
    | cons c cs ihc => simp [chainToks, ihc]; omega
  rw [hlen]
  have h := QualifiedParser.qloop_chain opP dP rest (2 * rest.length) a [] (p + 1)
    ctx (le_refl _)
  simpa using h

/-- C3: a parser invoked where its production does not start returns
success-with-`None` and the lookahead token unconsumed, pulling nothing
further from the lexer: `QualifiedParser::parse` when the first token is
none of `::` / identifier / `operator` / `~` (and no first identifier is
pre-known), and `ExternParser::parse` when the first token is not
`extern`. -/
theorem no_match_returns_token_unconsumed (opP : OpOracle) (dP : DtorOracle)
    (dlp : DeclListOracle) (tdp : TypeDeclOracle) (t u : Token)
    (l l2 : Lexer) (ctx ctx2 : Context)
    (h1 : startsName t = false) (h2 : u ≠ Token.Extern) :
    QualifiedParser.parse opP dP (some t) none l ctx = (.ok (some t, none), l, ctx) ∧
    ExternParser.parse dlp tdp (some u) l2 ctx2 = (.ok (some u, none), l2, ctx2) := by
  constructor
  · unfold QualifiedParser.parse
    simp only [resolveTok]
    rw [show l.toks.length + 2 = l.toks.length + 1 + 1 by omega,
      QualifiedParser.qloop_exit opP dP _ t [] true l ctx h1]
    simp
  · unfold ExternParser.parse
    simp [resolveTok, h2]

/-- C3 witness: a `;` token matches neither production; both parsers hand
it back unconsumed with no node. -/
theorem no_match_witness :
    QualifiedParser.parse opOracleFail dtorOracleFail (some Token.SemiColon) none
        ⟨[], 0⟩ ⟨[], []⟩ =
      (.ok (some Token.SemiColon, none), ⟨[], 0⟩, ⟨[], []⟩) ∧
    ExternParser.parse dlpProbe tdpConst (some Token.SemiColon) ⟨[], 0⟩ ⟨[], []⟩ =
      (.ok (some Token.SemiColon, none), ⟨[], 0⟩, ⟨[], []⟩) :=
  no_match_returns_token_unconsumed opOracleFail dtorOracleFail dlpProbe tdpConst
    Token.SemiColon Token.SemiColon ⟨[], 0⟩ ⟨[], 0⟩ ⟨[], []⟩ ⟨[], []⟩ rfl (by decide)

/-- When the qualified-name loop starts with already-collected names, every
`Ok(Some _)` result keeps the first collected name as head (names are only
ever appended at the tail) and is non-empty. -/
theorem QualifiedParser.qloop_head_preserved (opP : OpOracle) (dP : DtorOracle) :
    ∀ (fuel : Nat) (tok : Token) (n : Name) (ns : List Name) (waitId : Bool)
      (l : Lexer) (ctx : Context) (tk : Option Token) (q : Qualified)
      (l' : Lexer) (ctx' : Context),
      QualifiedParser.qloop opP dP fuel tok (n :: ns) waitId l ctx =
        (.ok (tk, some q), l', ctx') →
      q.names.head? = some n ∧ q.names ≠ [] := by
  intro fuel
  induction fuel with
  | zero =>
    intro tok n ns waitId l ctx tk q l' ctx' h
    simp [QualifiedParser.qloop] at h
  | succ f ih =>
    intro tok n ns waitId l ctx tk q l' ctx' h
    cases tok
    case ColonColon =>
      rw [QualifiedParser.qloop_step_colon] at h
      simp only [List.isEmpty_cons, Bool.false_eq_true, if_false] at h
      exact ih _ _ _ _ _ _ _ _ _ _ h
    case Identifier val =>
      simp only [QualifiedParser.qloop] at h
      split at h
      · rw [List.cons_append] at h
        exact ih _ _ _ _ _ _ _ _ _ _ h
      · simp only [Prod.mk.injEq, Except.ok.injEq, Option.some.injEq] at h
        obtain ⟨⟨h1, h2⟩, -, -⟩ := h
        subst h2
        simp
    case Operator =>
      simp only [QualifiedParser.qloop] at h
      split at h
      · simp only [Prod.mk.injEq, Except.ok.injEq, Option.some.injEq] at h
        obtain ⟨⟨h1, h2⟩, -, -⟩ := h
        subst h2
        simp
      · simp at h
      · simp at h
    case Tilde =>
      simp only [QualifiedParser.qloop] at h
      split at h
      · split at h
        · simp only [Prod.mk.injEq, Except.ok.injEq, Option.some.injEq] at h
          obtain ⟨⟨h1, h2⟩, -, -⟩ := h
          subst h2
          simp
        · simp at h
        · simp at h
      · simp only [Prod.mk.injEq, Except.ok.injEq, Option.some.injEq] at h
        obtain ⟨⟨h1, h2⟩, -, -⟩ := h
        subst h2
        simp
    all_goals
      simp only [QualifiedParser.qloop, List.isEmpty_cons, Bool.false_eq_true,
        if_false, Prod.mk.injEq, Except.ok.injEq, Option.some.injEq] at h
    all_goals
      obtain ⟨⟨h1, h2⟩, -, -⟩ := h
    all_goals subst h2
    all_goals simp

/-- When the qualified-name loop starts with nothing collected and
`wait_id` set, every `Ok(Some _)` result is non-empty, and its head is the
`Empty` marker exactly when the first token was `::`. -/
theorem QualifiedParser.qloop_empty_start (opP : OpOracle) (dP : DtorOracle)
    (fuel : Nat) (tok : Token) (l : Lexer) (ctx : Context) (tk : Option Token)
    (q : Qualified) (l' : Lexer) (ctx' : Context)
    (h : QualifiedParser.qloop opP dP fuel tok [] true l ctx =
      (.ok (tk, some q), l', ctx')) :
    q.names ≠ [] ∧ (q.names.head? = some Name.Empty ↔ tok = Token.ColonColon) := by
  cases fuel with
  | zero => simp [QualifiedParser.qloop] at h
  | succ f =>
    cases tok
    case ColonColon =>
      rw [QualifiedParser.qloop_step_colon] at h
      simp only [List.isEmpty_nil, if_true] at h
      have hp := QualifiedParser.qloop_head_preserved opP dP f _ Name.Empty [] true
        _ ctx tk q l' ctx' h
      exact ⟨hp.2, by simp [hp.1]⟩
    case Identifier val =>
      simp only [QualifiedParser.qloop, if_true, List.nil_append] at h
      have hp := QualifiedParser.qloop_head_preserved opP dP f _
        (Name.Identifier ⟨val⟩) [] false _ ctx tk q l' ctx' h
      refine ⟨hp.2, ?_⟩
      rw [hp.1]
      simp
    case Operator =>
      simp only [QualifiedParser.qloop] at h
      split at h
      · simp only [Prod.mk.injEq, Except.ok.injEq, Option.some.injEq,
          List.nil_append] at h
        obtain ⟨⟨h1, h2⟩, -, -⟩ := h
        subst h2
        simp
      · simp at h
      · simp at h
    case Tilde =>
      simp only [QualifiedParser.qloop, if_true] at h
      split at h
      · simp only [Prod.mk.injEq, Except.ok.injEq, Option.some.injEq,
          List.nil_append] at h
        obtain ⟨⟨h1, h2⟩, -, -⟩ := h
        subst h2
        simp
      · simp at h
      · simp at h
    all_goals simp [QualifiedParser.qloop] at h

/-- C4: every `Ok(Some q)` result of `QualifiedParser::parse` has non-empty
`names`, and its first element is the `Empty` variant exactly when no first
identifier was pre-known and the first token examined was the
global-scope `::`. -/
theorem qualified_nonempty_and_empty_head_iff (opP : OpOracle) (dP : DtorOracle)
    (tokOpt : Option Token) (first : Option String) (l : Lexer) (ctx : Context)
    (tk : Option Token) (q : Qualified) (l' : Lexer) (ctx' : Context)
    (h : QualifiedParser.parse opP dP tokOpt first l ctx =
      (.ok (tk, some q), l', ctx')) :
    q.names ≠ [] ∧
      (q.names.head? = some Name.Empty ↔
        (first = none ∧ initialTok tokOpt l = Token.ColonColon)) := by
  unfold QualifiedParser.parse at h
  cases first with
  | some val =>
    simp only at h
    have hp := QualifiedParser.qloop_head_preserved opP dP _ _ _ _ _ _ _ _ _ _ _ h
    refine ⟨hp.2, ?_⟩
    rw [hp.1]
    simp
  | none =>
    simp only at h
    have hp := QualifiedParser.qloop_empty_start opP dP _ _ _ _ _ _ _ _ h
    refine ⟨hp.1, ?_⟩
    rw [hp.2]
    simp [initialTok]

/-- C4 witness: on `:: abc` the parse succeeds, the name list is non-empty
and its head is the `Empty` global-scope marker, matching the iff. -/
theorem qualified_nonempty_witness :
    (Qualified.mk [Name.Empty, Name.Identifier ⟨"abc"⟩]).names ≠ [] ∧
      ((Qualified.mk [Name.Empty, Name.Identifier ⟨"abc"⟩]).names.head? =
          some Name.Empty ↔
        ((none : Option String) = none ∧
          initialTok none ⟨[Token.ColonColon, Token.Identifier "abc"], 0⟩ =
            Token.ColonColon)) :=
  qualified_nonempty_and_empty_head_iff opOracleFail dtorOracleFail none none
    ⟨[Token.ColonColon, Token.Identifier "abc"], 0⟩ ⟨[], []⟩ (some Token.Eof)
    ⟨[Name.Empty, Name.Identifier ⟨"abc"⟩]⟩ ⟨[], 3⟩ ⟨[], []⟩ rfl

/-- C7 counterexample: the claim says the single unbraced declaration after
`extern "lang"` is parsed starting from the very token that was peeked for
the `{` check.  It is not: the code consumes that token and calls the
declaration-list parser with lookahead `None`.  With the recording oracle
`dlpProbe` on `extern "C" x ;`, the parse result embeds the `"missed"`
marker (oracle saw no lookahead), while an invocation that had been handed
the token `x` would produce the distinct `"saw"` marker. -/
theorem extern_unbraced_drops_token :
    ExternParser.parse dlpProbe tdpConst none
        ⟨[Token.Extern, Token.LiteralString "C", Token.Identifier "x",
          Token.SemiColon], 0⟩ ⟨[], []⟩ =
      (.ok (some Token.Eof, some (.externD "C" [probeDecl "missed"] false)),
       ⟨[Token.SemiColon], 3⟩, ⟨[], []⟩) ∧
    (dlpProbe (some (Token.Identifier "x")) ⟨[Token.SemiColon], 3⟩ ⟨[], []⟩).1 =
      .ok (some Token.Eof, some [probeDecl "saw"]) ∧
    probeDecl "missed" ≠ probeDecl "saw" := by
  refine ⟨rfl, rfl, fun hcontra => ?_⟩
  simp only [probeDecl] at hcontra
  injection hcontra with h1 h2 h3
  exact absurd h1 (by decide)

/-- C7 (amended): after `extern` and a string literal, if the next token is
`{` the result is an `Extern` with `multiple = true` and the returned token
slot is `None` (the construct consumed its own `}`); if the next token is
not `{`, the result is an `Extern` with `multiple = false` whose
declarations come from the declaration-list parser invoked with *no*
lookahead on the stream after that token — the peeked token is dropped, not
handed over. -/
theorem extern_string_literal_branches (dlp : DeclListOracle) (tdp : TypeDeclOracle)
    (tokOpt : Option Token) (l : Lexer) (ctx : Context) {lang : String}
    {t3 : Token} {l1 l2 l3 l4 : Lexer} {c1 : Context} {t4 : Option Token}
    {ds : List Declaration}
    (hres : resolveTok tokOpt l = (Token.Extern, l1))
    (h2 : nextUseful l1 = (Token.LiteralString lang, l2))
    (h3 : nextUseful l2 = (t3, l3))
    (hdlp : dlp none l3 ctx = (.ok (t4, some ds), l4, c1)) :
    (∀ t5 l5, t3 = Token.LeftBrace → resolveTok t4 l4 = (t5, l5) →
      t5 = Token.RightBrace →
      ExternParser.parse dlp tdp tokOpt l ctx =
        (.ok (none, some (.externD lang ds true)), l5, c1)) ∧
    (t3 ≠ Token.LeftBrace →
      ExternParser.parse dlp tdp tokOpt l ctx =
        (.ok (t4, some (.externD lang ds false)), l4, c1)) := by
  constructor
  · intro t5 l5 hb hres5 hrb
    subst hb
    subst hrb
    unfold ExternParser.parse
    simp [hres, h2, h3, hdlp, hres5]
  · intro hb
    unfold ExternParser.parse
    simp [hres, h2, h3, hdlp, hb]

/-- C7 witness: the amended non-brace branch at a concrete input. -/
theorem extern_string_literal_branches_witness :
    ExternParser.parse dlpProbe tdpConst none
        ⟨[Token.Extern, Token.LiteralString "D", Token.Identifier "y",
          Token.SemiColon], 0⟩ ⟨[], []⟩ =
      (.ok (some Token.Eof, some (.externD "D" [probeDecl "missed"] false)),
       ⟨[Token.SemiColon], 3⟩, ⟨[], []⟩) :=
  (extern_string_literal_branches dlpProbe tdpConst none
    ⟨[Token.Extern, Token.LiteralString "D", Token.Identifier "y",
      Token.SemiColon], 0⟩ ⟨[], []⟩ rfl rfl rfl rfl).2 (by decide)

/-- C8: on `extern` followed by a non-string token, the parser delegates
that very token to the type-declarator collaborator with the
`Specifier::EXTERN` hint, registers the resulting declarator with the
shared Context (one new entry), and wraps it as a plain type declaration —
not an `Extern` node. -/
theorem extern_specifier_delegation (dlp : DeclListOracle) (tdp : TypeDeclOracle)
    (tokOpt : Option Token) (l : Lexer) (ctx : Context) {l1 l2 l3 : Lexer}
    {t2 : Token} {tk : Option Token} {typ : TypeDeclarator} {c1 : Context}
    (hres : resolveTok tokOpt l = (Token.Extern, l1))
    (h2 : nextUseful l1 = (t2, l2))
    (hns : ∀ s, t2 ≠ Token.LiteralString s)
    (htdp : tdp (some t2) (some (DeclHint.Specifier Specifier.EXTERN)) true l2 ctx =
      (.ok (tk, some typ), l3, c1)) :
    ExternParser.parse dlp tdp tokOpt l ctx =
      (.ok (tk, some (.typeD typ)), l3,
        { c1 with typeDecls := typ :: c1.typeDecls }) := by
  unfold ExternParser.parse
  cases t2
  case LiteralString s => exact absurd rfl (hns s)
  all_goals simp [hres, h2, htdp, Context.addTypeDecl]

/-- C8 witness: `extern dbl` with a constant type-declarator collaborator;
the context gains exactly the returned declarator. -/
theorem extern_specifier_delegation_witness :
    ExternParser.parse dlpProbe tdpConst none
        ⟨[Token.Extern, Token.Identifier "dbl"], 0⟩ ⟨[], []⟩ =
      (.ok (some Token.Eof, some (.typeD ⟨42⟩)), ⟨[], 2⟩, ⟨[], [⟨42⟩]⟩) :=
  extern_specifier_delegation dlpProbe tdpConst none
    ⟨[Token.Extern, Token.Identifier "dbl"], 0⟩ ⟨[], []⟩ rfl rfl
    (fun _ h => Token.noConfusion h) rfl

/-- C9: with the body and condition collaborators succeeding, the do-parse
returns `Ok((None, Some(Do)))` — the trailing `;` consumed — exactly when
the four checkpoint tokens after the body are `while`, `(`, `)`, `;`; at
the first mismatching checkpoint it returns `InvalidTokenInDo` carrying
that token and the span at that point, and no `Do` node. -/
theorem do_parse_characterization (sP : StmtOracle) (eP : ExprOracle)
    (attrs : Option Attributes) (l : Lexer) (ctx : Context)
    {tb : Option Token} {body : Statement} {l1 : Lexer} {c1 : Context}
    {t0 : Token} {l2 : Lexer} {t1 : Token} {l3 : Lexer}
    {te : Option Token} {cond : ExprNode} {l4 : Lexer} {c3 : Context}
    {t2 : Token} {l5 : Lexer} {t3 : Token} {l6 : Lexer}
    (hstmt : sP none l (ctx.setCurrent none ScopeKind.DoBlock) =
      (.ok (tb, some body), l1, c1))
    (h0 : resolveTok tb l1 = (t0, l2))
    (h1 : nextUseful l2 = (t1, l3))
    (hexpr : eP Token.RightParen none l3 c1.pop = (.ok (te, some cond), l4, c3))
    (h2 : resolveTok te l4 = (t2, l5))
    (h3 : nextUseful l5 = (t3, l6)) :
    (DoStmtParser.parse sP eP attrs l ctx =
        (.ok (none, some ⟨attrs, body, cond⟩), l6, c3) ↔
      (t0 = Token.While ∧ t1 = Token.LeftParen ∧ t2 = Token.RightParen ∧
        t3 = Token.SemiColon)) ∧
    (t0 ≠ Token.While →
      DoStmtParser.parse sP eP attrs l ctx =
        (.error (.invalidTokenInDo l2.pos t0), l2, c1.pop)) ∧
    (t0 = Token.While → t1 ≠ Token.LeftParen →
      DoStmtParser.parse sP eP attrs l ctx =
        (.error (.invalidTokenInDo l3.pos t1), l3, c1.pop)) ∧
    (t0 = Token.While → t1 = Token.LeftParen → t2 ≠ Token.RightParen →
      DoStmtParser.parse sP eP attrs l ctx =
        (.error (.invalidTokenInDo l5.pos t2), l5, c3)) ∧
    (t0 = Token.While → t1 = Token.LeftParen → t2 = Token.RightParen →
      t3 ≠ Token.SemiColon →
      DoStmtParser.parse sP eP attrs l ctx =
        (.error (.invalidTokenInDo l6.pos t3), l6, c3)) := by
  have kk : DoStmtParser.parse sP eP attrs l ctx =
      (if t0 = Token.While then
        if t1 = Token.LeftParen then
          if t2 = Token.RightParen then
            if t3 = Token.SemiColon then
              (.ok (none, some ⟨attrs, body, cond⟩), l6, c3)
            else (.error (.invalidTokenInDo l6.pos t3), l6, c3)
          else (.error (.invalidTokenInDo l5.pos t2), l5, c3)
        else (.error (.invalidTokenInDo l3.pos t1), l3, c1.pop)
      else (.error (.invalidTokenInDo l2.pos t0), l2, c1.pop)) := by
    unfold DoStmtParser.parse
    simp only [hstmt, h0, h1, hexpr, h2, h3]
  rw [kk]
  by_cases e0 : t0 = Token.While <;> by_cases e1 : t1 = Token.LeftParen <;>
    by_cases e2 : t2 = Token.RightParen <;> by_cases e3 : t3 = Token.SemiColon <;>
    simp [e0, e1, e2, e3]

/-- C9 witness: `while ( 1 ) ;` after a trivially succeeding body parse —
full success consuming through `;`, with the token slot `None`. -/
theorem do_parse_characterization_witness :
    DoStmtParser.parse stmtOracleOk exprOracleLit none
        ⟨[Token.While, Token.LeftParen, Token.LiteralInt 1, Token.RightParen,
          Token.SemiColon], 0⟩ ⟨[], []⟩ =
      (.ok (none, some ⟨none, Statement.mk 0, ExprNode.integer 1⟩),
       ⟨[], 5⟩, ⟨[], []⟩) :=
  (do_parse_characterization stmtOracleOk exprOracleLit none
    ⟨[Token.While, Token.LeftParen, Token.LiteralInt 1, Token.RightParen,
      Token.SemiColon], 0⟩ ⟨[], []⟩ rfl rfl rfl rfl rfl rfl).1.mpr
    ⟨rfl, rfl, rfl, rfl⟩

end Cpp
